import Mathlib

/-!
Shallow embedding of `train_gpt2.py` (GPT-2 replication: model, data loader,
learning-rate schedule, training-loop arithmetic, evaluation helper), together
with theorems settling the specification claims about it.

Numeric conventions: exact rationals `ℚ` stand for the float values wherever
the code's arithmetic is rational; the transcendental primitives the code gets
from torch (`sqrt`, `exp`, `tanh` and the GELU constant) are threaded through
as an explicit `Prim` environment, and `get_lr`, which genuinely needs the
cosine, is embedded over `ℝ` with `Real.cos`.
-/

namespace GPT2

/-! ### DataLoaderLite (train_gpt2.py lines 217-254) -/

/-- State of a `DataLoaderLite` instance: hyperparameters fixed by `__init__`
plus the mutable fields `current_shard`, `tokens`, `current_pos`. -/
structure DataLoaderLite where
  B : ℕ
  T : ℕ
  rank : ℕ
  num_processes : ℕ
  shards : List (List ℕ)
  current_shard : ℕ
  tokens : List ℕ
  current_pos : ℕ

/-- `tensor.view(B, T)` on a flat list of `B*T` tokens: row `b` is the
slice `[b*T, b*T + T)`. -/
def view2d (B T : ℕ) (l : List ℕ) : List (List ℕ) :=
  (List.range B).map fun b => ((l.drop (b * T)).take T)

/-- `DataLoaderLite.reset` (lines 236-239). -/
def DataLoaderLite.reset (s : DataLoaderLite) : DataLoaderLite :=
  { s with
    current_shard := 0
    tokens := (s.shards.getD 0 [])
    current_pos := s.B * s.T * s.rank }

/-- `DataLoaderLite.next_batch` (lines 241-254).  The slice
`self.tokens[current_pos : current_pos + B*T+1]` is `buffer`; `x = buffer[:-1]`
and `y = buffer[1:]` reshaped to `(B, T)`; then `current_pos` advances by
`B*T*num_processes`, wrapping to the next shard when fewer than another full
stride plus one token remains.  `.view` throws when the buffer is short, which
we model as `none`. -/
def DataLoaderLite.next_batch (s : DataLoaderLite) :
    Option ((List (List ℕ) × List (List ℕ)) × DataLoaderLite) :=
  if s.current_pos + s.B * s.T + 1 ≤ s.tokens.length then
    some ((view2d s.B s.T (((s.tokens.drop s.current_pos).take (s.B * s.T + 1)).take (s.B * s.T)),
           view2d s.B s.T (((s.tokens.drop s.current_pos).take (s.B * s.T + 1)).drop 1)),
      if s.tokens.length <
          s.current_pos + s.B * s.T * s.num_processes + (s.B * s.T * s.num_processes + 1) then
        { s with
          current_shard := (s.current_shard + 1) % s.shards.length
          tokens := s.shards.getD ((s.current_shard + 1) % s.shards.length) []
          current_pos := s.B * s.T * s.rank }
      else { s with current_pos := s.current_pos + s.B * s.T * s.num_processes })
  else none

/-- Iterate `next_batch` k times, recording only the evolving state (for
claims about `current_pos` across steps). -/
def DataLoaderLite.stepN (s : DataLoaderLite) : ℕ → Option DataLoaderLite
  | 0 => some s
  | k + 1 => (s.next_batch).bind fun r => r.2.stepN k

/-- The set of token indices read from the current shard by one
`next_batch` call issued at position `pos`: the code slices
`tokens[pos : pos + B*T + 1]`. -/
def readRange (B T pos : ℕ) : Set ℕ := Set.Ico pos (pos + B * T + 1)

/-- The `B*T`-token window served as `x` by a `next_batch` call issued at
position `pos`. -/
def xWindow (B T pos : ℕ) : Set ℕ := Set.Ico pos (pos + B * T)

/-- A concrete two-process loader, rank 0: `B = T = 1`, one shard whose
tokens are `[10, 11, 12, 13, 14, 15, 16, 17]`. -/
def loaderRank0 : DataLoaderLite :=
  ⟨1, 1, 0, 2, [[10, 11, 12, 13, 14, 15, 16, 17]], 0, [], 0⟩

/-- The same concrete loader with rank 1. -/
def loaderRank1 : DataLoaderLite :=
  ⟨1, 1, 1, 2, [[10, 11, 12, 13, 14, 15, 16, 17]], 0, [], 0⟩

/-! ### Learning-rate schedule (train_gpt2.py lines 330-345) -/

/-- `max_lr = 6e-4` (line 331). -/
def max_lr : ℝ := 6e-4

/-- `min_lr = max_lr * 0.1` (line 332). -/
def min_lr : ℝ := max_lr * 0.1

/-- `warmup_steps = 128` (line 333). -/
def warmup_steps : ℕ := 128

/-- `max_steps = 19702` (line 334). -/
def max_steps : ℕ := 19702

/-- `get_lr` (lines 336-345): linear warmup for `it < warmup_steps`, constant
`min_lr` past `max_steps`, cosine decay in between. -/
noncomputable def get_lr (it : ℕ) : ℝ :=
  if it < warmup_steps then max_lr * ((it : ℝ) + 1) / warmup_steps
  else if max_steps < it then min_lr
  else
    let decay_ratio : ℝ := ((it : ℝ) - warmup_steps) / ((max_steps : ℝ) - warmup_steps)
    let coeff : ℝ := 0.5 * (1.0 + Real.cos (Real.pi * decay_ratio))
    min_lr + coeff * (max_lr - min_lr)

/-! ### Config (train_gpt2.py lines 10-16) -/

/-- The `Config` dataclass. -/
structure Config where
  block_size : ℕ := 1024
  vocab_size : ℕ := 50257
  n_layer : ℕ := 12
  n_head : ℕ := 12
  n_embd : ℕ := 768

/-- A weight matrix, row-major as in `torch`. -/
abbrev Mat : Type := List (List ℚ)

/-! ### Weight tying (train_gpt2.py lines 91-96, C2) -/

/-- The reference structure of the two embedding/projection parameters of a
`GPT` module: each named parameter is a reference into a heap of tensor
objects, so that Python aliasing is explicit. -/
structure GPTWeights where
  wteRef : ℕ
  lmHeadRef : ℕ
  store : ℕ → Mat

/-- `GPT.__init__` before line 94: `transformer.wte.weight` and
`lm_head.weight` are two distinct freshly allocated tensors. -/
def allocWeights (wteInit lmHeadInit : Mat) : GPTWeights :=
  { wteRef := 0
    lmHeadRef := 1
    store := fun i => if i = 0 then wteInit else if i = 1 then lmHeadInit else [] }

/-- Line 94, `self.transformer.wte.weight = self.lm_head.weight`: the name
`transformer.wte.weight` is rebound to the very tensor object
`lm_head.weight` references. -/
def tieWeights (m : GPTWeights) : GPTWeights := { m with wteRef := m.lmHeadRef }

/-- `GPT.__init__`'s effect on the two parameters (allocation followed by the
line-94 tying; the subsequent `apply(__init__weights)` and any later
optimizer step or `copy_` are in-place updates, modelled by `updateParam`). -/
def GPT_init_weights (wteInit lmHeadInit : Mat) : GPTWeights :=
  tieWeights (allocWeights wteInit lmHeadInit)

/-- An in-place parameter update (`optimizer.step()`, `sd[k].copy_(...)`,
`init.normal_` …): mutates the tensor object `id` in the heap, never the
references. -/
def updateParam (m : GPTWeights) (id : ℕ) (f : Mat → Mat) : GPTWeights :=
  { m with store := fun i => if i = id then f (m.store i) else m.store i }

/-- A sequence of in-place parameter updates applied in order. -/
def applyUpdates (m : GPTWeights) (us : List (ℕ × (Mat → Mat))) : GPTWeights :=
  us.foldl (fun m u => updateParam m u.1 u.2) m

/-- The tensor currently named `transformer.wte.weight`. -/
def GPTWeights.wte (m : GPTWeights) : Mat := m.store m.wteRef

/-- The tensor currently named `lm_head.weight`. -/
def GPTWeights.lm_head (m : GPTWeights) : Mat := m.store m.lmHeadRef

/-! ### Batch-size check and gradient accumulation
(train_gpt2.py lines 304-311 and 453-470, C7) -/

/-- `total_batch_size = 524288` (line 304). -/
def total_batch_size : ℕ := 524288

/-- `B = 8` (line 305). -/
def B : ℕ := 8

/-- `T = 1024` (line 306). -/
def T : ℕ := 1024

/-- Lines 307-308: the startup assert that `total_batch_size` is divisible by
`B * T * ddp_world_size`, then `grad_accum_steps = total_batch_size // (B * T *
ddp_world_size)`.  A failed assert (program abort) is `none`. -/
def grad_accum_steps_checked (total B T ddp_world_size : ℕ) : Option ℕ :=
  if total % (B * T * ddp_world_size) = 0 then
    some (total / (B * T * ddp_world_size))
  else none

/-- Lines 453-466: `loss_accum` starts at `0.0` and each of the
`grad_accum_steps` micro-steps adds `loss / grad_accum_steps`. -/
noncomputable def loss_accum (G : ℕ) (loss : Fin G → ℝ) : ℝ := ∑ i, loss i / G

/-- Lines 465-470: each micro-step calls `backward()` on the scaled loss
`L i θ / grad_accum_steps`, and gradients of successive `backward()` calls
add up; the accumulated gradient after the loop. -/
noncomputable def accumulated_grad {E : Type} [NormedAddCommGroup E] [NormedSpace ℝ E]
    (G : ℕ) (L : Fin G → E → ℝ) (θ : E) : E →L[ℝ] ℝ :=
  ∑ i, fderiv ℝ (fun p => L i p / G) θ

/-! ### from_pretrained (train_gpt2.py lines 131-172, C9) -/

/-- A Python `str.endswith`, evaluated on the underlying character list (the
built-in `String.endsWith` does not reduce definitionally). -/
def endswith (s suf : String) : Bool := List.isSuffixOf suf.data s.data

/-- Lines 133-146 of `GPT.from_pretrained`: the assert on `model_type` (a
failure is `none`) and the fixed `(n_layer, n_head, n_embd)` table, with
`vocab_size = 50257` and `block_size = 1024`. -/
def from_pretrained_config (model_type : String) : Option Config :=
  if model_type = "gpt2" then
    some { block_size := 1024, vocab_size := 50257, n_layer := 12, n_head := 12, n_embd := 768 }
  else if model_type = "gpt2-medium" then
    some { block_size := 1024, vocab_size := 50257, n_layer := 24, n_head := 16, n_embd := 1024 }
  else if model_type = "gpt2-large" then
    some { block_size := 1024, vocab_size := 50257, n_layer := 36, n_head := 20, n_embd := 1280 }
  else if model_type = "gpt2-xl" then
    some { block_size := 1024, vocab_size := 50257, n_layer := 48, n_head := 25, n_embd := 1600 }
  else none

/-- Line 159: the suffixes whose weights are stored transposed in the
checkpoint. -/
def transposed : List String :=
  ["attn.c_attn.weight", "attn.c_proj.weight", "mlp.c_fc.weight", "mlp.c_proj.weight"]

/-- Lines 162-170, body of the copy loop for one key: the checkpoint tensor is
transposed exactly when the key ends with one of the `transposed` suffixes. -/
def copy_param (k : String) (w : Mat) : Mat :=
  if transposed.any (fun suf => endswith k suf) then w.transpose else w

/-- The whole copy loop: every checkpoint entry is copied (via `copy_param`)
into the model's state dict entry of the same name. -/
def from_pretrained_copy (sd_hf : List (String × Mat)) : List (String × Mat) :=
  sd_hf.map (fun p => (p.1, copy_param p.1 p.2))

/-! ### The transformer model (train_gpt2.py lines 18-129, C1 and C3)

Activations are `List ℚ` vectors; the transcendental primitives supplied by
torch (`sqrt`, `exp`, `tanh`, and the constant `sqrt(2/π)` of the tanh-GELU)
are threaded through as an explicit environment `Prim`. -/

/-- The transcendental primitives of the torch runtime, as oracles. -/
structure Prim where
  sqrt : ℚ → ℚ
  exp : ℚ → ℚ
  tanh : ℚ → ℚ
  sqrt_two_over_pi : ℚ

/-- Dot product. -/
def dot (a b : List ℚ) : ℚ := (List.zipWith (fun x y => x * y) a b).sum

/-- `W @ x` for a row-major weight matrix. -/
def matVec (W : List (List ℚ)) (x : List ℚ) : List ℚ := W.map (fun row => dot row x)

/-- Elementwise vector addition. -/
def addVec (a b : List ℚ) : List ℚ := List.zipWith (fun x y => x + y) a b

/-- Scalar times vector. -/
def smul (w : ℚ) (v : List ℚ) : List ℚ := v.map (fun vi => w * vi)

/-- Sum of a list of `n`-vectors. -/
def sumVecs (n : ℕ) (vs : List (List ℚ)) : List ℚ := vs.foldr addVec (List.replicate n 0)

/-- `nn.Linear`: weight `(out, in)` plus optional bias. -/
structure Linear where
  weight : List (List ℚ)
  bias : Option (List ℚ)

/-- `y = x @ W^T + b`. -/
def Linear.forward (l : Linear) (x : List ℚ) : List ℚ :=
  match l.bias with
  | some b => List.zipWith (fun x y => x + y) (matVec l.weight x) b
  | none => matVec l.weight x

/-- `nn.LayerNorm(n_embd)` with elementwise affine parameters. -/
structure LayerNorm where
  weight : List ℚ
  bias : List ℚ

/-- `nn.LayerNorm.forward` with the default `eps = 1e-5`: normalize by mean
and (biased) variance, then scale and shift. -/
def LayerNorm.forward (prim : Prim) (ln : LayerNorm) (x : List ℚ) : List ℚ :=
  List.zipWith (fun (gb : ℚ × ℚ) xi =>
      gb.1 * ((xi - x.sum / (x.length : ℚ)) /
        prim.sqrt ((x.map (fun v => (v - x.sum / (x.length : ℚ)) ^ 2)).sum / (x.length : ℚ)
          + 1e-5)) + gb.2)
    (ln.weight.zip ln.bias) x

/-- `nn.GELU(approximate='tanh')` on one coordinate. -/
def gelu (prim : Prim) (x : ℚ) : ℚ :=
  0.5 * x * (1 + prim.tanh (prim.sqrt_two_over_pi * (x + 0.044715 * x ^ 3)))

/-- Softmax of a score vector, with `exp` from the environment. -/
def softmax (prim : Prim) (zs : List ℚ) : List ℚ :=
  (zs.map prim.exp).map (fun e => e / (zs.map prim.exp).sum)

/-- `CausalSelfAttention` (lines 18-51). -/
structure CausalSelfAttention where
  c_attn : Linear
  c_proj : Linear
  n_head : ℕ
  n_embd : ℕ

/-- Head `h`'s slice of a per-position vector (`view` + `transpose(1, 2)`). -/
def headSlice (hs h : ℕ) (v : List ℚ) : List ℚ := (v.drop (h * hs)).take hs

/-- Line 38, `qkv = self.c_attn(x)` applied to every position of one batch
row. -/
def qkvRows (a : CausalSelfAttention) (xs : List (List ℚ)) : List (List ℚ) :=
  xs.map a.c_attn.forward

/-- Line 39, the `q` third of the split. -/
def qRows (a : CausalSelfAttention) (xs : List (List ℚ)) : List (List ℚ) :=
  (qkvRows a xs).map (fun r => r.take a.n_embd)

/-- Line 39, the `k` third of the split. -/
def kRows (a : CausalSelfAttention) (xs : List (List ℚ)) : List (List ℚ) :=
  (qkvRows a xs).map (fun r => (r.drop a.n_embd).take a.n_embd)

/-- Line 39, the `v` third of the split. -/
def vRows (a : CausalSelfAttention) (xs : List (List ℚ)) : List (List ℚ) :=
  (qkvRows a xs).map (fun r => (r.drop (2 * a.n_embd)).take a.n_embd)

/-- `CausalSelfAttention.forward` (lines 32-51) on one batch row:
`F.scaled_dot_product_attention(q, k, v, is_causal=True)` computes, per head
and position `t`, softmax over positions `s ≤ t` of `q_t · k_s / sqrt(hs)`
weights applied to the values; the heads are reassembled side by side and
projected by `c_proj`. -/
def CausalSelfAttention.forward (prim : Prim) (a : CausalSelfAttention)
    (xs : List (List ℚ)) : List (List ℚ) :=
  (List.range xs.length).map (fun t =>
    a.c_proj.forward ((List.range a.n_head).flatMap (fun h =>
      sumVecs (a.n_embd / a.n_head) (List.zipWith smul
        (softmax prim (((kRows a xs).take (t + 1)).map (fun k =>
          dot (headSlice (a.n_embd / a.n_head) h ((qRows a xs).getD t []))
              (headSlice (a.n_embd / a.n_head) h k) /
            prim.sqrt ((a.n_embd / a.n_head : ℕ) : ℚ))))
        (((vRows a xs).take (t + 1)).map (headSlice (a.n_embd / a.n_head) h))))))

/-- `MLP` (lines 53-65). -/
structure MLP where
  c_fc : Linear
  c_proj : Linear

/-- `MLP.forward` (lines 61-65), position-wise. -/
def MLP.forward (prim : Prim) (m : MLP) (x : List ℚ) : List ℚ :=
  m.c_proj.forward ((m.c_fc.forward x).map (gelu prim))

/-- `Block` (lines 67-78). -/
structure Block where
  ln_1 : LayerNorm
  attn : CausalSelfAttention
  ln_2 : LayerNorm
  mlp : MLP

/-- `Block.forward` (lines 75-78): `x = x + attn(ln_1(x))` then
`x = x + mlp(ln_2(x))`, on one batch row. -/
def Block.forward (prim : Prim) (b : Block) (xs : List (List ℚ)) : List (List ℚ) :=
  let x1 := List.zipWith addVec xs (CausalSelfAttention.forward prim b.attn
    (xs.map (b.ln_1.forward prim)))
  List.zipWith addVec x1 (x1.map (fun v => b.mlp.forward prim (b.ln_2.forward prim v)))

/-- `GPT` (lines 80-96): token and position embedding tables, the block
stack, the final layer norm and the (bias-free) language-model head. -/
structure GPT where
  config : Config
  wte : List (List ℚ)
  wpe : List (List ℚ)
  h : List Block
  ln_f : LayerNorm
  lm_head : Linear

/-- `GPT.forward` (lines 109-123) on one batch row: token embeddings plus
position embeddings, the blocks in order (`for block in self.transformer.h`),
`ln_f`, then `lm_head`. -/
def GPT.forwardSeq (prim : Prim) (g : GPT) (seq : List ℕ) : List (List ℚ) :=
  ((g.h.foldl (fun x blk => Block.forward prim blk x)
      (List.zipWith addVec (seq.map (fun tk => g.wte.getD tk []))
        ((List.range seq.length).map (fun t => g.wpe.getD t [])))).map
    (g.ln_f.forward prim)).map g.lm_head.forward

/-- `GPT.forward` on a batch: the line-112 assert rejects sequences longer
than `block_size` (modelled as `none`); otherwise each batch row is processed
independently. -/
def GPT.forward (prim : Prim) (g : GPT) (idx : List (List ℕ)) :
    Option (List (List (List ℚ))) :=
  if ∀ r ∈ idx, r.length ≤ g.config.block_size then
    some (idx.map (GPT.forwardSeq prim g))
  else none

/-! #### Specification-side definitions for C1 and C3 (worded from the claim,
to be compared with the source embedding above) -/

/-- The claim's composition `h_n ∘ ... ∘ h_1` of the blocks in order. -/
def composeBlocks (prim : Prim) : List Block → (List (List ℚ) → List (List ℚ))
  | [] => id
  | blk :: rest => composeBlocks prim rest ∘ Block.forward prim blk

/-- C1's description of the forward pass:
`lm_head(ln_f(h_n(... h_1(wte(idx) + wpe([0..T-1])) ...)))` per batch row. -/
def GPT.specForward (prim : Prim) (g : GPT) (idx : List (List ℕ)) :
    List (List (List ℚ)) :=
  idx.map (fun seq =>
    ((composeBlocks prim g.h
        (List.zipWith addVec (seq.map (fun tk => g.wte.getD tk []))
          ((List.range seq.length).map (fun t => g.wpe.getD t [])))).map
      (g.ln_f.forward prim)).map g.lm_head.forward)

/-- C3's description of one attention head: causal scaled dot-product
attention `softmax(Q Kᵀ / sqrt(hs)) V` over rows of per-head `Q`, `K`, `V`
matrices. -/
def sdpa (prim : Prim) (hs : ℕ) (q k v : List (List ℚ)) : List (List ℚ) :=
  (List.range q.length).map (fun t =>
    sumVecs hs (List.zipWith smul
      (softmax prim ((k.take (t + 1)).map (fun kr =>
        dot (q.getD t []) kr / prim.sqrt ((hs : ℕ) : ℚ))))
      (v.take (t + 1))))

/-- C3's description of the whole module: per-head scaled dot-product
attention on the head-sliced projections of `c_attn`, reassembled and passed
through `c_proj`. -/
def specAttn (prim : Prim) (a : CausalSelfAttention) (xs : List (List ℚ)) :
    List (List ℚ) :=
  (List.range xs.length).map (fun t =>
    a.c_proj.forward ((List.range a.n_head).flatMap (fun h =>
      (sdpa prim (a.n_embd / a.n_head)
          ((qRows a xs).map (headSlice (a.n_embd / a.n_head) h))
          ((kRows a xs).map (headSlice (a.n_embd / a.n_head) h))
          ((vRows a xs).map (headSlice (a.n_embd / a.n_head) h))).getD t [])))

/-! #### Shape well-formedness predicates for the model -/

/-- Shapes of a `Linear` layer. -/
def LinearWF (l : Linear) (din dout : ℕ) : Prop :=
  l.weight.length = dout ∧ (∀ row ∈ l.weight, row.length = din) ∧
    (∀ b ∈ l.bias, b.length = dout)

/-- Shapes of a `LayerNorm`. -/
def LayerNormWF (ln : LayerNorm) (d : ℕ) : Prop :=
  ln.weight.length = d ∧ ln.bias.length = d

/-- Shapes of a `CausalSelfAttention` at width `C` (the line-21 assert is
`n_embd % n_head == 0`). -/
def AttnWF (a : CausalSelfAttention) (C : ℕ) : Prop :=
  a.n_embd = C ∧ 0 < a.n_head ∧ a.n_head ∣ C ∧
    LinearWF a.c_attn C (3 * C) ∧ LinearWF a.c_proj C C

/-- Shapes of an `MLP` at width `C`. -/
def MLPWF (m : MLP) (C : ℕ) : Prop :=
  LinearWF m.c_fc C (4 * C) ∧ LinearWF m.c_proj (4 * C) C

/-- Shapes of a `Block` at width `C`. -/
def BlockWF (b : Block) (C : ℕ) : Prop :=
  LayerNormWF b.ln_1 C ∧ AttnWF b.attn C ∧ LayerNormWF b.ln_2 C ∧ MLPWF b.mlp C

/-- Shapes of a whole `GPT`. -/
def GPTWF (g : GPT) : Prop :=
  g.wte.length = g.config.vocab_size ∧
  (∀ r ∈ g.wte, r.length = g.config.n_embd) ∧
  g.wpe.length = g.config.block_size ∧
  (∀ r ∈ g.wpe, r.length = g.config.n_embd) ∧
  (∀ b ∈ g.h, BlockWF b g.config.n_embd) ∧
  LayerNormWF g.ln_f g.config.n_embd ∧
  LinearWF g.lm_head g.config.n_embd g.config.vocab_size

/-- An identity-flavoured primitive environment for concrete witnesses. -/
def tinyPrim : Prim := ⟨id, id, id, 1⟩

/-- A one-head, one-channel attention module for concrete witnesses. -/
def tinyAttn : CausalSelfAttention :=
  ⟨⟨[[1], [1], [1]], some [0, 0, 0]⟩, ⟨[[1]], some [0]⟩, 1, 1⟩

/-- A one-channel, one-token-vocabulary, zero-block model for concrete
witnesses. -/
def tinyGPT : GPT :=
  { config := { block_size := 1, vocab_size := 1, n_layer := 0, n_head := 1, n_embd := 1 }
    wte := [[1]]
    wpe := [[1]]
    h := []
    ln_f := ⟨[1], [0]⟩
    lm_head := ⟨[[1]], none⟩ }

/-! ### get_most_likely_row (train_gpt2.py lines 258-270, C8) -/

/-- The smallest value of a list (`0` for the empty list). -/
def minVal : List ℚ → ℚ
  | [] => 0
  | x :: xs => if xs = [] then x else min x (minVal xs)

/-- `torch.argmin` on a vector: the index of the first occurrence of the
smallest value (`0` for the empty list). -/
def idxOfMin : List ℚ → ℕ
  | [] => 0
  | x :: xs => if xs = [] then 0 else if x ≤ minVal xs then 0 else idxOfMin xs + 1

/-- Lines 259-264: drop the last logits position and the first token of every
row, flatten both (`view(-1, ...)`), apply per-position cross-entropy
(`reduction='none'`), then reshape back to `tokens.size(0)` rows
(`view(tokens.size(0), -1)` infers `flat length / rows` columns).
`ce` is the external `F.cross_entropy` on one logits row and one target. -/
def shiftLossRows (ce : List ℚ → ℕ → ℚ) (tokens : List (List ℕ))
    (logits : List (List (List ℚ))) : List (List ℚ) :=
  (List.range tokens.length).map (fun r =>
    (((List.zipWith ce (logits.map (fun row => row.dropLast)).flatten
        (tokens.map (fun row => row.drop 1)).flatten).drop
      (r * ((List.zipWith ce (logits.map (fun row => row.dropLast)).flatten
        (tokens.map (fun row => row.drop 1)).flatten).length / tokens.length))).take
      ((List.zipWith ce (logits.map (fun row => row.dropLast)).flatten
        (tokens.map (fun row => row.drop 1)).flatten).length / tokens.length)))

/-- Lines 265-268: the per-row `avg_loss` vector — shifted losses times
shifted mask (`masked_shift_losses`), summed per row (`sum_loss`), divided by
the per-row mask sum. -/
def avg_list (ce : List ℚ → ℕ → ℚ) (tokens : List (List ℕ))
    (mask : List (List ℚ)) (logits : List (List (List ℚ))) : List ℚ :=
  List.zipWith (fun s msum => s / msum)
    ((List.zipWith (fun lr mr => List.zipWith (fun a b => a * b) lr mr)
        (shiftLossRows ce tokens logits)
        (mask.map (fun row => row.drop 1))).map (fun row => row.sum))
    ((mask.map (fun row => row.drop 1)).map (fun row => row.sum))

/-- `get_most_likely_row` (lines 258-270): the argmin row of `avg_loss`. -/
def get_most_likely_row (ce : List ℚ → ℕ → ℚ) (tokens : List (List ℕ))
    (mask : List (List ℚ)) (logits : List (List (List ℚ))) : ℕ :=
  idxOfMin (avg_list ce tokens mask logits)

/-- The quantity the specification describes for row `r`: the sum of
per-position cross-entropies weighted by the shifted mask, divided by the
number of nonzero shifted-mask entries of the row. -/
def mask_avg_loss (ce : List ℚ → ℕ → ℚ) (tokens : List (List ℕ))
    (mask : List (List ℚ)) (logits : List (List (List ℚ))) (r : ℕ) : ℚ :=
  (List.zipWith (fun a b => a * b)
      (List.zipWith ce ((logits.getD r []).dropLast) ((tokens.getD r []).drop 1))
      ((mask.getD r []).drop 1)).sum /
    ((((mask.getD r []).drop 1).filter (fun v => v ≠ 0)).length : ℚ)

/-! ### __init__weights (train_gpt2.py lines 98-107, C10) -/

/-- What matters about an `nn.Linear` submodule for `__init__weights`: the
Python attributes set on it and whether it has a bias. -/
structure LinearMeta where
  name : String
  attrs : List String
  hasBias : Bool
deriving DecidableEq

/-- The four `nn.Linear` submodules of block `i`: `CausalSelfAttention.__init__`
sets attribute `GPT_SCALE_INIT` on its `c_proj` (line 27) and `MLP.__init__`
does the same on its `c_proj` (line 59); no other Linear gets an attribute. -/
def blockLinears (i : ℕ) : List LinearMeta :=
  [⟨"h." ++ toString i ++ ".attn.c_attn", [], true⟩,
   ⟨"h." ++ toString i ++ ".attn.c_proj", ["GPT_SCALE_INIT"], true⟩,
   ⟨"h." ++ toString i ++ ".mlp.c_fc", [], true⟩,
   ⟨"h." ++ toString i ++ ".mlp.c_proj", ["GPT_SCALE_INIT"], true⟩]

/-- All `nn.Linear` modules of a freshly constructed `GPT`: the four per
block, plus the bias-free `lm_head`. -/
def gptLinears (config : Config) : List LinearMeta :=
  ((List.range config.n_layer).flatMap blockLinears) ++ [⟨"lm_head", [], false⟩]

/-- Line 100-102 of `__init__weights`: `std = 0.02`, scaled by
`(2 * n_layer) ** -0.5` when the module has the (misspelled) attribute
`GPT_SCaLE_INIT`. -/
noncomputable def init_weights_std (config : Config) (m : LinearMeta) : ℝ :=
  if "GPT_SCaLE_INIT" ∈ m.attrs then
    0.02 * ((2 * config.n_layer : ℝ)) ^ (-(1/2) : ℝ)
  else 0.02

/-- Line 103: the mean of the normal init for Linear weights. -/
def init_weights_mean : ℝ := 0.0

/-- Line 105: Linear biases are zero-initialized. -/
def init_weights_bias : ℝ := 0

/-- Line 107: Embedding weights are drawn with std 0.02. -/
def init_weights_embedding_std : ℝ := 0.02

end GPT2

namespace GPT2

/-! ### Theorems: data loader -/

theorem view2d_flatten (B T : ℕ) (l : List ℕ) :
    (view2d B T l).flatten = l.take (B * T) := by
  induction B with
  | zero => simp [view2d]
  | succ B ih =>
    simp only [view2d, List.range_succ, List.map_append, List.map_cons, List.map_nil,
      List.flatten_append, List.flatten_cons, List.flatten_nil, List.append_nil]
    rw [show (B + 1) * T = B * T + T by ring, List.take_add]
    rw [← ih]
    rfl

theorem view2d_getElem (B T : ℕ) (l : List ℕ) (b t : ℕ) (hb : b < B) (ht : t < T) :
    ((view2d B T l)[b]?).bind (fun r => r[t]?) = l[b * T + t]? := by
  simp only [view2d, List.getElem?_map, List.getElem?_range hb, Option.map_some',
    Option.bind_some, Option.some_bind]
  rw [List.getElem?_take, if_pos ht, List.getElem?_drop]

theorem mul_add_lt_mul (b t B T : ℕ) (hb : b < B) (ht : t < T) :
    b * T + t < B * T := by
  calc b * T + t < b * T + T := by omega
    _ = (b + 1) * T := by ring
    _ ≤ B * T := Nat.mul_le_mul_right T hb

/-- C4: with enough tokens remaining, `next_batch` returns two `(B, T)` windows
of consecutive tokens starting at `current_pos`, with `y` shifted one token
ahead of `x`: flattened, `x = tokens[pos : pos + B*T]` and
`y = tokens[pos + 1 : pos + B*T + 1]`, so `y[b, t]` is the token that
immediately follows `x[b, t]` in the stream. -/
theorem next_batch_windows (s : DataLoaderLite)
    (h : s.current_pos + s.B * s.T + 1 ≤ s.tokens.length) :
    ∃ x y s', s.next_batch = some ((x, y), s') ∧
      x.flatten = (s.tokens.drop s.current_pos).take (s.B * s.T) ∧
      y.flatten = (s.tokens.drop (s.current_pos + 1)).take (s.B * s.T) ∧
      ∀ b, b < s.B → ∀ t, t < s.T →
        (x[b]?).bind (fun r => r[t]?) = s.tokens[s.current_pos + (b * s.T + t)]? ∧
        (y[b]?).bind (fun r => r[t]?) = s.tokens[s.current_pos + (b * s.T + t) + 1]? := by
  have hbuf_take :
      (((s.tokens.drop s.current_pos).take (s.B * s.T + 1)).take (s.B * s.T)) =
        (s.tokens.drop s.current_pos).take (s.B * s.T) := by
    rw [List.take_take, min_eq_left (Nat.le_succ _)]
  have hbuf_drop :
      (((s.tokens.drop s.current_pos).take (s.B * s.T + 1)).drop 1) =
        (s.tokens.drop (s.current_pos + 1)).take (s.B * s.T) := by
    rw [List.drop_take, List.drop_drop]
    simp
  obtain ⟨s', hnb⟩ : ∃ s', s.next_batch =
      some ((view2d s.B s.T (((s.tokens.drop s.current_pos).take (s.B * s.T + 1)).take (s.B * s.T)),
             view2d s.B s.T (((s.tokens.drop s.current_pos).take (s.B * s.T + 1)).drop 1)), s') := by
    unfold DataLoaderLite.next_batch
    rw [if_pos h]
    exact ⟨_, rfl⟩
  refine ⟨_, _, s', hnb, ?_, ?_, ?_⟩
  · rw [hbuf_take, view2d_flatten, List.take_take, min_self]
  · rw [hbuf_drop, view2d_flatten, List.take_take, min_self]
  · intro b hb t ht
    have hlt : b * s.T + t < s.B * s.T := mul_add_lt_mul b t s.B s.T hb ht
    constructor
    · rw [view2d_getElem _ _ _ _ _ hb ht, hbuf_take, List.getElem?_take, if_pos hlt,
        List.getElem?_drop]
    · rw [view2d_getElem _ _ _ _ _ hb ht, hbuf_drop, List.getElem?_take, if_pos hlt,
        List.getElem?_drop]
      congr 1
      omega

theorem next_batch_windows_witness :
    (loaderRank0.reset).current_pos + (loaderRank0.reset).B * (loaderRank0.reset).T + 1 ≤
      (loaderRank0.reset).tokens.length ∧
    ∃ x y s', (loaderRank0.reset).next_batch = some ((x, y), s') ∧
      x.flatten = [10] ∧ y.flatten = [11] := by
  refine ⟨by decide, ?_⟩
  obtain ⟨x, y, s', hnb, hfx, hfy, _⟩ := next_batch_windows (loaderRank0.reset) (by decide)
  exact ⟨x, y, s', hnb, hfx.trans (by decide), hfy.trans (by decide)⟩

theorem next_batch_advance (s : DataLoaderLite) (x y : List (List ℕ))
    (s' : DataLoaderLite) (h : s.next_batch = some ((x, y), s')) :
    s'.current_pos = s.current_pos + s.B * s.T * s.num_processes ∨
      s'.current_pos = s.B * s.T * s.rank := by
  unfold DataLoaderLite.next_batch at h
  split at h
  · split at h
    · right
      obtain rfl : _ = s' := congrArg (fun p => Prod.snd p) (Option.some.inj h)
      rfl
    · left
      obtain rfl : _ = s' := congrArg (fun p => Prod.snd p) (Option.some.inj h)
      rfl
  · exact absurd h (by simp)

theorem stepN_no_wrap (k : ℕ) (s : DataLoaderLite)
    (hP : 1 ≤ s.num_processes)
    (hlen : s.current_pos + (k + 1) * (s.B * s.T * s.num_processes) + 1 ≤ s.tokens.length) :
    ∃ s', s.stepN k = some s' ∧
      s'.current_pos = s.current_pos + k * (s.B * s.T * s.num_processes) ∧
      s'.B = s.B ∧ s'.T = s.T ∧ s'.num_processes = s.num_processes ∧ s'.rank = s.rank := by
  induction k generalizing s with
  | zero => exact ⟨s, rfl, by simp, rfl, rfl, rfl, rfl⟩
  | succ k ih =>
    have hstride : s.B * s.T ≤ s.B * s.T * s.num_processes :=
      Nat.le_mul_of_pos_right _ hP
    have e1 : (k + 1 + 1) * (s.B * s.T * s.num_processes) =
        (k + 1) * (s.B * s.T * s.num_processes) + s.B * s.T * s.num_processes := by ring
    have e2 : (k + 1) * (s.B * s.T * s.num_processes) =
        k * (s.B * s.T * s.num_processes) + s.B * s.T * s.num_processes := by ring
    have hsome : s.current_pos + s.B * s.T + 1 ≤ s.tokens.length := by omega
    have hnowrap : ¬ (s.tokens.length <
        s.current_pos + s.B * s.T * s.num_processes +
          (s.B * s.T * s.num_processes + 1)) := by omega
    have hstep : s.next_batch =
        some ((view2d s.B s.T (((s.tokens.drop s.current_pos).take (s.B * s.T + 1)).take (s.B * s.T)),
               view2d s.B s.T (((s.tokens.drop s.current_pos).take (s.B * s.T + 1)).drop 1)),
              { s with current_pos := s.current_pos + s.B * s.T * s.num_processes }) := by
      unfold DataLoaderLite.next_batch
      rw [if_pos hsome, if_neg hnowrap]
    have hlen' :
        s.current_pos + s.B * s.T * s.num_processes +
          (k + 1) * (s.B * s.T * s.num_processes) + 1 ≤ s.tokens.length := by omega
    obtain ⟨s', h1, h2, h3, h4, h5, h6⟩ :=
      ih { s with current_pos := s.current_pos + s.B * s.T * s.num_processes } hP hlen'
    refine ⟨s', ?_, by rw [h2]; dsimp only; omega, h3, h4, h5, h6⟩
    show (s.next_batch.bind fun r => r.2.stepN k) = some s'
    rw [hstep]
    exact h1

theorem xWindow_disjoint (B T P r₁ r₂ k₁ k₂ : ℕ) (_hBT : 0 < B * T)
    (h₁ : r₁ < P) (h₂ : r₂ < P) (hne : r₁ ≠ r₂) :
    Disjoint (xWindow B T (B * T * r₁ + k₁ * (B * T * P)))
             (xWindow B T (B * T * r₂ + k₂ * (B * T * P))) := by
  rw [Set.disjoint_left]
  rintro i hi₁ hi₂
  rw [xWindow, Set.mem_Ico] at hi₁ hi₂
  have ea : B * T * (r₁ + k₁ * P) = B * T * r₁ + k₁ * (B * T * P) := by ring
  have eb : B * T * (r₂ + k₂ * P) = B * T * r₂ + k₂ * (B * T * P) := by ring
  have hab : r₁ + k₁ * P = r₂ + k₂ * P := by
    rcases Nat.lt_trichotomy (r₁ + k₁ * P) (r₂ + k₂ * P) with hlt | heq | hgt
    · exfalso
      have h1 : B * T * (r₁ + k₁ * P + 1) ≤ B * T * (r₂ + k₂ * P) :=
        Nat.mul_le_mul_left _ (by omega)
      have h2 : B * T * (r₁ + k₁ * P + 1) = B * T * (r₁ + k₁ * P) + B * T := by ring
      omega
    · exact heq
    · exfalso
      have h1 : B * T * (r₂ + k₂ * P + 1) ≤ B * T * (r₁ + k₁ * P) :=
        Nat.mul_le_mul_left _ (by omega)
      have h2 : B * T * (r₂ + k₂ * P + 1) = B * T * (r₂ + k₂ * P) + B * T := by ring
      omega
  have : (r₁ + k₁ * P) % P = (r₂ + k₂ * P) % P := by rw [hab]
  rw [Nat.add_mul_mod_self_right, Nat.add_mul_mod_self_right,
    Nat.mod_eq_of_lt h₁, Nat.mod_eq_of_lt h₂] at this
  exact hne this

/-- C5 (amended): after `reset`, `current_pos = B * T * rank`; each
`next_batch` call advances `current_pos` by `B * T * num_processes` unless a
shard wrap resets it to `B * T * rank`; and for two loaders with the same
`B`, `T`, `num_processes` and distinct ranks below `num_processes`, the
`B*T`-token `x`-windows they serve within one pass over a shard are pairwise
disjoint (the one-token lookahead read for `y` may touch the next rank's
window boundary). -/
theorem dataloader_rank_sharding (s₁ s₂ : DataLoaderLite) (k₁ k₂ : ℕ)
    (hB : s₂.B = s₁.B) (hT : s₂.T = s₁.T) (hPeq : s₂.num_processes = s₁.num_processes)
    (hBT : 0 < s₁.B * s₁.T) (hP : 1 ≤ s₁.num_processes)
    (hr₁ : s₁.rank < s₁.num_processes) (hr₂ : s₂.rank < s₁.num_processes)
    (hne : s₁.rank ≠ s₂.rank)
    (hlen₁ : (s₁.reset).current_pos + (k₁ + 1) * (s₁.B * s₁.T * s₁.num_processes) + 1 ≤
      (s₁.reset).tokens.length)
    (hlen₂ : (s₂.reset).current_pos + (k₂ + 1) * (s₂.B * s₂.T * s₂.num_processes) + 1 ≤
      (s₂.reset).tokens.length) :
    (s₁.reset).current_pos = s₁.B * s₁.T * s₁.rank ∧
    (s₂.reset).current_pos = s₂.B * s₂.T * s₂.rank ∧
    (∀ s x y s', DataLoaderLite.next_batch s = some ((x, y), s') →
        s'.current_pos = s.current_pos + s.B * s.T * s.num_processes ∨
          s'.current_pos = s.B * s.T * s.rank) ∧
    ∃ t₁ t₂, (s₁.reset).stepN k₁ = some t₁ ∧ (s₂.reset).stepN k₂ = some t₂ ∧
      Disjoint (xWindow s₁.B s₁.T t₁.current_pos) (xWindow s₁.B s₁.T t₂.current_pos) := by
  refine ⟨rfl, rfl, next_batch_advance, ?_⟩
  obtain ⟨t₁, ht₁, hp₁, _, _, _, _⟩ := stepN_no_wrap k₁ (s₁.reset) hP hlen₁
  obtain ⟨t₂, ht₂, hp₂, _, _, _, _⟩ :=
    stepN_no_wrap k₂ (s₂.reset) (by rw [show (s₂.reset).num_processes = s₂.num_processes from rfl, hPeq]; exact hP) hlen₂
  refine ⟨t₁, t₂, ht₁, ht₂, ?_⟩
  have hq₁ : t₁.current_pos = s₁.B * s₁.T * s₁.rank + k₁ * (s₁.B * s₁.T * s₁.num_processes) := hp₁
  have hq₂ : t₂.current_pos = s₁.B * s₁.T * s₂.rank + k₂ * (s₁.B * s₁.T * s₁.num_processes) := by
    rw [hp₂]
    show s₂.B * s₂.T * s₂.rank + k₂ * (s₂.B * s₂.T * s₂.num_processes) = _
    rw [hB, hT, hPeq]
  rw [hq₁, hq₂]
  exact xWindow_disjoint _ _ _ _ _ _ _ hBT hr₁ hr₂ hne

theorem dataloader_rank_sharding_witness :
    (loaderRank0.reset).current_pos = loaderRank0.B * loaderRank0.T * loaderRank0.rank ∧
    (loaderRank1.reset).current_pos = loaderRank1.B * loaderRank1.T * loaderRank1.rank ∧
    (∀ s x y s', DataLoaderLite.next_batch s = some ((x, y), s') →
        s'.current_pos = s.current_pos + s.B * s.T * s.num_processes ∨
          s'.current_pos = s.B * s.T * s.rank) ∧
    ∃ t₁ t₂, (loaderRank0.reset).stepN 1 = some t₁ ∧ (loaderRank1.reset).stepN 1 = some t₂ ∧
      Disjoint (xWindow loaderRank0.B loaderRank0.T t₁.current_pos)
               (xWindow loaderRank0.B loaderRank0.T t₂.current_pos) :=
  dataloader_rank_sharding loaderRank0 loaderRank1 1 1 rfl rfl rfl (by decide) (by decide)
    (by decide) (by decide) (by decide) (by decide) (by decide)

/-- C5 (counterexample to the claim as stated): with `B = T = 1` and two
processes, rank 0's first `next_batch` reads stream indices `{0, 1}` (serving
the token `11` at index 1 as `y`) while rank 1's first `next_batch` reads
stream indices `{1, 2}` (serving the same token `11` as `x`), so the full
index ranges the two ranks read are not disjoint. -/
theorem dataloader_read_ranges_overlap :
    (∃ xy₀ s₀, (loaderRank0.reset).next_batch = some (xy₀, s₀) ∧ xy₀.2 = [[11]]) ∧
    (∃ xy₁ s₁, (loaderRank1.reset).next_batch = some (xy₁, s₁) ∧ xy₁.1 = [[11]]) ∧
    ¬ Disjoint (readRange 1 1 (loaderRank0.reset).current_pos)
               (readRange 1 1 (loaderRank1.reset).current_pos) := by
  refine ⟨⟨_, _, rfl, rfl⟩, ⟨_, _, rfl, rfl⟩, ?_⟩
  rw [Set.not_disjoint_iff]
  refine ⟨1, ?_, ?_⟩ <;>
    simp [readRange, DataLoaderLite.reset, loaderRank0, loaderRank1]

/-! ### Theorems: learning-rate schedule -/

theorem get_lr_eq_cosine (it : ℕ) (h1 : warmup_steps ≤ it) (h2 : it ≤ max_steps) :
    get_lr it = min_lr +
      0.5 * (1 + Real.cos (Real.pi *
        (((it : ℝ) - warmup_steps) / ((max_steps : ℝ) - warmup_steps)))) * (max_lr - min_lr) := by
  unfold get_lr
  rw [if_neg (by omega : ¬ it < warmup_steps), if_neg (by omega : ¬ max_steps < it)]
  norm_num

theorem get_lr_antitone (i j : ℕ) (h1 : warmup_steps ≤ i) (hij : i ≤ j)
    (h2 : j ≤ max_steps) : get_lr j ≤ get_lr i := by
  rw [get_lr_eq_cosine i h1 (le_trans hij h2), get_lr_eq_cosine j (le_trans h1 hij) h2]
  have hden : (0 : ℝ) < (max_steps : ℝ) - warmup_steps := by
    norm_num [max_steps, warmup_steps]
  have hcast_i : ((warmup_steps : ℝ)) ≤ (i : ℝ) := by exact_mod_cast h1
  have hcast_ij : ((i : ℝ)) ≤ (j : ℝ) := by exact_mod_cast hij
  have hcast_j : ((j : ℝ)) ≤ (max_steps : ℝ) := by exact_mod_cast h2
  set ri : ℝ := ((i : ℝ) - warmup_steps) / ((max_steps : ℝ) - warmup_steps) with hri
  set rj : ℝ := ((j : ℝ) - warmup_steps) / ((max_steps : ℝ) - warmup_steps) with hrj
  have h0i : 0 ≤ ri := div_nonneg (by linarith) hden.le
  have hij' : ri ≤ rj := by
    rw [hri, hrj]
    exact (div_le_div_iff_of_pos_right hden).2 (by linarith)
  have hj1 : rj ≤ 1 := by
    rw [hrj, div_le_one hden]
    linarith
  have hcos : Real.cos (Real.pi * rj) ≤ Real.cos (Real.pi * ri) := by
    refine Real.cos_le_cos_of_nonneg_of_le_pi (mul_nonneg Real.pi_pos.le h0i) ?_
      (mul_le_mul_of_nonneg_left hij' Real.pi_pos.le)
    calc Real.pi * rj ≤ Real.pi * 1 := mul_le_mul_of_nonneg_left hj1 Real.pi_pos.le
      _ = Real.pi := mul_one _
  have hgap : (0 : ℝ) ≤ max_lr - min_lr := by norm_num [max_lr, min_lr]
  nlinarith [mul_nonneg hgap (sub_nonneg.2 hcos)]

theorem get_lr_bounds (it : ℕ) : 0 < get_lr it ∧ get_lr it ≤ max_lr := by
  unfold get_lr
  split
  case isTrue h =>
    have hw : (0 : ℝ) < (warmup_steps : ℝ) := by norm_num [warmup_steps]
    have hml : (0 : ℝ) < max_lr := by norm_num [max_lr]
    have hle : (it : ℝ) + 1 ≤ (warmup_steps : ℝ) := by exact_mod_cast h
    constructor
    · exact div_pos (mul_pos hml (by positivity)) hw
    · rw [div_le_iff₀ hw]
      nlinarith
  case isFalse h =>
    split
    case isTrue h2 => norm_num [min_lr, max_lr]
    case isFalse h2 =>
      have hc1 : Real.cos (Real.pi *
          (((it : ℝ) - warmup_steps) / ((max_steps : ℝ) - warmup_steps))) ≤ 1 :=
        Real.cos_le_one _
      have hc2 : -1 ≤ Real.cos (Real.pi *
          (((it : ℝ) - warmup_steps) / ((max_steps : ℝ) - warmup_steps))) :=
        Real.neg_one_le_cos _
      constructor
      · simp only [max_lr, min_lr]
        nlinarith
      · simp only [max_lr, min_lr]
        nlinarith

/-- C6: `get_lr` implements linear warmup followed by cosine decay: for
`it < warmup_steps` it returns `max_lr * (it+1) / warmup_steps`; for
`warmup_steps ≤ it ≤ max_steps` it returns
`min_lr + 0.5 * (1 + cos (π * (it - warmup_steps)/(max_steps - warmup_steps))) * (max_lr - min_lr)`,
which is monotonically non-increasing in `it`, equals `max_lr` at
`it = warmup_steps` and `min_lr` at `it = max_steps`; for `it > max_steps` it
returns `min_lr`; and for every `it ≥ 0` the result lies in `(0, max_lr]`. -/
theorem get_lr_spec (it : ℕ) :
    (it < warmup_steps → get_lr it = max_lr * ((it : ℝ) + 1) / warmup_steps) ∧
    (warmup_steps ≤ it → it ≤ max_steps →
      get_lr it = min_lr +
        0.5 * (1 + Real.cos (Real.pi *
          (((it : ℝ) - warmup_steps) / ((max_steps : ℝ) - warmup_steps)))) *
          (max_lr - min_lr)) ∧
    (∀ j, warmup_steps ≤ it → it ≤ j → j ≤ max_steps → get_lr j ≤ get_lr it) ∧
    get_lr warmup_steps = max_lr ∧
    get_lr max_steps = min_lr ∧
    (max_steps < it → get_lr it = min_lr) ∧
    (0 < get_lr it ∧ get_lr it ≤ max_lr) := by
  refine ⟨?_, get_lr_eq_cosine it, fun j h1 h2 h3 => get_lr_antitone it j h1 h2 h3,
    ?_, ?_, ?_, get_lr_bounds it⟩
  · intro h
    unfold get_lr
    rw [if_pos h]
  · rw [get_lr_eq_cosine warmup_steps le_rfl (by norm_num [warmup_steps, max_steps])]
    have hz : (((warmup_steps : ℕ) : ℝ) - warmup_steps) / ((max_steps : ℝ) - warmup_steps) = 0 := by
      norm_num
    rw [hz, mul_zero, Real.cos_zero]
    norm_num [min_lr, max_lr]
  · rw [get_lr_eq_cosine max_steps (by norm_num [warmup_steps, max_steps]) le_rfl]
    have ho : (((max_steps : ℕ) : ℝ) - warmup_steps) / ((max_steps : ℝ) - warmup_steps) = 1 := by
      norm_num [max_steps, warmup_steps]
    rw [ho, mul_one, Real.cos_pi]
    norm_num
  · intro h
    unfold get_lr
    rw [if_neg (by unfold warmup_steps max_steps at *; omega), if_pos h]

theorem get_lr_spec_witness :
    get_lr 0 = max_lr * (((0 : ℕ) : ℝ) + 1) / warmup_steps ∧ get_lr 19703 = min_lr :=
  ⟨(get_lr_spec 0).1 (by decide),
   (get_lr_spec 19703).2.2.2.2.2.1 (by decide)⟩

/-! ### Theorems: weight tying -/

/-- C2: after `GPT.__init__` (and hence after `from_pretrained`, which
constructs the model the same way and then only performs in-place `copy_`
updates), `transformer.wte.weight` and `lm_head.weight` reference the same
tensor object, so they are element-wise equal and remain equal under every
subsequent sequence of in-place parameter updates. -/
theorem weight_tying (a b : Mat) :
    (GPT_init_weights a b).wteRef = (GPT_init_weights a b).lmHeadRef ∧
    ∀ us : List (ℕ × (Mat → Mat)),
      (applyUpdates (GPT_init_weights a b) us).wte =
        (applyUpdates (GPT_init_weights a b) us).lm_head := by
  have key : ∀ (us : List (ℕ × (Mat → Mat))) (m : GPTWeights), m.wteRef = m.lmHeadRef →
      (applyUpdates m us).wte = (applyUpdates m us).lm_head := by
    intro us
    induction us with
    | nil =>
      intro m h
      simp [applyUpdates, GPTWeights.wte, GPTWeights.lm_head, h]
    | cons u us ih =>
      intro m h
      exact ih (updateParam m u.1 u.2) h
  exact ⟨rfl, fun us => key us _ rfl⟩

/-! ### Theorems: batch-size check and gradient accumulation -/

/-- C7: the startup check only passes when `total_batch_size` is exactly
divisible by `B * T * ddp_world_size` (in which case `grad_accum_steps` is the
quotient — 64 with the script's constants and one process); `loss_accum`, the
sum of the per-micro-step scaled losses, equals the arithmetic mean of the
micro-batch losses; and the accumulated gradient of the scaled losses equals
the gradient of the mean micro-batch loss. -/
theorem grad_accum_spec {E : Type} [NormedAddCommGroup E] [NormedSpace ℝ E]
    (G : ℕ) (L : Fin G → E → ℝ) (θ : E)
    (hdiff : ∀ i, DifferentiableAt ℝ (L i) θ) (loss : Fin G → ℝ) :
    (∀ total b t w, total % (b * t * w) = 0 →
        grad_accum_steps_checked total b t w = some (total / (b * t * w))) ∧
    (∀ total b t w, total % (b * t * w) ≠ 0 →
        grad_accum_steps_checked total b t w = none) ∧
    grad_accum_steps_checked total_batch_size B T 1 = some 64 ∧
    loss_accum G loss = (∑ i, loss i) / G ∧
    accumulated_grad G L θ = fderiv ℝ (fun p => (∑ i, L i p) / G) θ := by
  refine ⟨?_, ?_, by decide, ?_, ?_⟩
  · intro total b t w h
    unfold grad_accum_steps_checked
    rw [if_pos h]
  · intro total b t w h
    unfold grad_accum_steps_checked
    rw [if_neg h]
  · unfold loss_accum
    rw [Finset.sum_div]
  · unfold accumulated_grad
    have e : ∀ i : Fin G, (fun p => L i p / G) = (fun p => ((G : ℝ))⁻¹ * L i p) := by
      intro i
      funext p
      rw [div_eq_inv_mul]
    have e2 : (fun p => (∑ i, L i p) / G) = (fun p => ((G : ℝ))⁻¹ * ∑ i, L i p) := by
      funext p
      rw [div_eq_inv_mul]
    calc ∑ i, fderiv ℝ (fun p => L i p / G) θ
        = ∑ i, ((G : ℝ))⁻¹ • fderiv ℝ (L i) θ := by
          refine Finset.sum_congr rfl fun i _ => ?_
          rw [e i, fderiv_const_mul (hdiff i)]
      _ = ((G : ℝ))⁻¹ • ∑ i, fderiv ℝ (L i) θ := (Finset.smul_sum).symm
      _ = fderiv ℝ (fun p => (∑ i, L i p) / G) θ := by
          rw [e2, fderiv_const_mul (DifferentiableAt.sum fun i _ => hdiff i),
            fderiv_sum fun i _ => hdiff i]

theorem grad_accum_spec_witness :
    (∀ total b t w, total % (b * t * w) = 0 →
        grad_accum_steps_checked total b t w = some (total / (b * t * w))) ∧
    (∀ total b t w, total % (b * t * w) ≠ 0 →
        grad_accum_steps_checked total b t w = none) ∧
    grad_accum_steps_checked total_batch_size B T 1 = some 64 ∧
    loss_accum 2 (fun _ => (1 : ℝ)) = (∑ _i : Fin 2, (1 : ℝ)) / 2 ∧
    accumulated_grad 2 (fun _ => (id : ℝ → ℝ)) (0 : ℝ) =
      fderiv ℝ (fun p => (∑ _i : Fin 2, (id p : ℝ)) / 2) 0 :=
  grad_accum_spec 2 (fun _ => (id : ℝ → ℝ)) (0 : ℝ)
    (fun _ => differentiableAt_id') (fun _ => (1 : ℝ))

/-! ### Theorems: from_pretrained -/

/-- C9: `from_pretrained` asserts (aborts) for every `model_type` outside the
four GPT-2 sizes; for each of the four it builds the `Config` from the fixed
`(n_layer, n_head, n_embd)` table with `vocab_size = 50257` and
`block_size = 1024`; and the copy loop copies every checkpoint parameter,
transposing exactly those whose names end in `attn.c_attn.weight`,
`attn.c_proj.weight`, `mlp.c_fc.weight`, or `mlp.c_proj.weight`. -/
theorem from_pretrained_spec (model_type : String) :
    (model_type ∉ (["gpt2", "gpt2-medium", "gpt2-large", "gpt2-xl"] : List String) →
      from_pretrained_config model_type = none) ∧
    from_pretrained_config "gpt2" =
      some { block_size := 1024, vocab_size := 50257, n_layer := 12, n_head := 12, n_embd := 768 } ∧
    from_pretrained_config "gpt2-medium" =
      some { block_size := 1024, vocab_size := 50257, n_layer := 24, n_head := 16, n_embd := 1024 } ∧
    from_pretrained_config "gpt2-large" =
      some { block_size := 1024, vocab_size := 50257, n_layer := 36, n_head := 20, n_embd := 1280 } ∧
    from_pretrained_config "gpt2-xl" =
      some { block_size := 1024, vocab_size := 50257, n_layer := 48, n_head := 25, n_embd := 1600 } ∧
    (∀ k w, (∃ suf ∈ transposed, endswith k suf = true) → copy_param k w = w.transpose) ∧
    (∀ k w, (¬ ∃ suf ∈ transposed, endswith k suf = true) → copy_param k w = w) ∧
    (∀ sd_hf (k : String) (w : Mat), (k, w) ∈ sd_hf →
      (k, copy_param k w) ∈ from_pretrained_copy sd_hf) := by
  refine ⟨?_, rfl, rfl, rfl, rfl, ?_, ?_, ?_⟩
  · intro h
    simp only [List.mem_cons, List.not_mem_nil, or_false, not_or] at h
    obtain ⟨h1, h2, h3, h4⟩ := h
    unfold from_pretrained_config
    rw [if_neg h1, if_neg h2, if_neg h3, if_neg h4]
  · intro k w h
    unfold copy_param
    rw [if_pos (List.any_eq_true.2 h)]
  · intro k w h
    unfold copy_param
    rw [if_neg (fun hc => h (List.any_eq_true.1 hc))]
  · intro sd_hf k w h
    exact List.mem_map.2 ⟨(k, w), h, rfl⟩

theorem from_pretrained_spec_witness :
    from_pretrained_config "gpt3" = none ∧
    copy_param "transformer.h.0.mlp.c_fc.weight" [[1, 2], [3, 4]] = [[1, 3], [2, 4]] ∧
    copy_param "transformer.wte.weight" [[1, 2], [3, 4]] = [[1, 2], [3, 4]] :=
  ⟨(from_pretrained_spec "gpt3").1 (by decide),
   ((from_pretrained_spec "gpt3").2.2.2.2.2.1 "transformer.h.0.mlp.c_fc.weight" [[1, 2], [3, 4]]
     ⟨"mlp.c_fc.weight", by decide, by decide⟩).trans (by decide),
   (from_pretrained_spec "gpt3").2.2.2.2.2.2.1 "transformer.wte.weight" [[1, 2], [3, 4]]
     (by decide)⟩

/-! ### Theorems: __init__weights -/

/-- C10: `__init__weights` probes for the attribute `GPT_SCaLE_INIT`, while
the attention and MLP output projections set `GPT_SCALE_INIT`, so the
`(2 * n_layer) ** -0.5` scaling branch is unreachable and every `nn.Linear`
weight of a freshly constructed model is initialized with mean `0.0` and std
exactly `0.02` (biases zero, embeddings std `0.02`). -/
theorem init_weights_spec (config : Config) :
    ("GPT_SCaLE_INIT" : String) ≠ "GPT_SCALE_INIT" ∧
    (∀ m ∈ gptLinears config, ("GPT_SCaLE_INIT" : String) ∉ m.attrs ∧
      init_weights_std config m = 0.02) ∧
    init_weights_mean = 0 ∧ init_weights_bias = 0 ∧ init_weights_embedding_std = 0.02 := by
  refine ⟨by decide, ?_, by norm_num [init_weights_mean], rfl, rfl⟩
  intro m hm
  have hna : ("GPT_SCaLE_INIT" : String) ∉ m.attrs := by
    simp only [gptLinears, List.mem_append, List.mem_flatMap, blockLinears, List.mem_cons,
      List.not_mem_nil, or_false] at hm
    rcases hm with ⟨i, _, h | h | h | h⟩ | h <;> subst h <;> simp
  refine ⟨hna, ?_⟩
  unfold init_weights_std
  rw [if_neg hna]

theorem init_weights_spec_witness :
    ("GPT_SCaLE_INIT" : String) ∉ (⟨"lm_head", [], false⟩ : LinearMeta).attrs ∧
    init_weights_std {} ⟨"lm_head", [], false⟩ = 0.02 :=
  (init_weights_spec {}).2.1 ⟨"lm_head", [], false⟩ (by decide)

/-! ### Theorems: get_most_likely_row -/

theorem minVal_le (l : List ℚ) : ∀ y ∈ l, minVal l ≤ y := by
  induction l with
  | nil => simp
  | cons x xs ih =>
    intro y hy
    rcases List.mem_cons.1 hy with rfl | hy'
    · by_cases h : xs = [] <;> simp [minVal, h]
    · have hne : xs ≠ [] := by rintro rfl; simp at hy'
      simp only [minVal, if_neg hne]
      exact le_trans (min_le_right _ _) (ih y hy')

theorem minVal_mem (l : List ℚ) (h : l ≠ []) : minVal l ∈ l := by
  induction l with
  | nil => exact absurd rfl h
  | cons x xs ih =>
    by_cases hxs : xs = []
    · subst hxs
      simp [minVal]
    · simp only [minVal, if_neg hxs]
      rcases min_cases x (minVal xs) with ⟨he, _⟩ | ⟨he, _⟩
      · rw [he]
        exact List.mem_cons_self x xs
      · rw [he]
        exact List.mem_cons_of_mem x (ih hxs)

theorem idxOfMin_lt (l : List ℚ) (h : l ≠ []) : idxOfMin l < l.length := by
  induction l with
  | nil => exact absurd rfl h
  | cons x xs ih =>
    by_cases hxs : xs = []
    · simp [idxOfMin, hxs]
    · by_cases hle : x ≤ minVal xs
      · simp [idxOfMin, hxs, hle]
      · simp only [idxOfMin, if_neg hxs, if_neg hle, List.length_cons]
        exact Nat.succ_lt_succ (ih hxs)

theorem idxOfMin_le (l : List ℚ) : ∀ y ∈ l, l.getD (idxOfMin l) 0 ≤ y := by
  induction l with
  | nil => simp
  | cons x xs ih =>
    intro y hy
    by_cases hxs : xs = []
    · subst hxs
      rcases List.mem_cons.1 hy with rfl | h'
      · simp [idxOfMin]
      · simp at h'
    · by_cases hle : x ≤ minVal xs
      · simp only [idxOfMin, if_neg hxs, if_pos hle]
        rcases List.mem_cons.1 hy with rfl | hy'
        · simp
        · calc (x :: xs).getD 0 0 = x := rfl
            _ ≤ minVal xs := hle
            _ ≤ y := minVal_le xs y hy'
      · simp only [idxOfMin, if_neg hxs, if_neg hle]
        have hgd : (x :: xs).getD (idxOfMin xs + 1) 0 = xs.getD (idxOfMin xs) 0 := rfl
        rw [hgd]
        rcases List.mem_cons.1 hy with rfl | hy'
        · calc xs.getD (idxOfMin xs) 0 ≤ minVal xs := ih (minVal xs) (minVal_mem xs hxs)
            _ ≤ y := (not_le.1 hle).le
        · exact ih y hy'

theorem zipWith_flatten_uniform {α β γ : Type} (f : α → β → γ) (n : ℕ) :
    ∀ (l₁ : List (List α)) (l₂ : List (List β)),
      l₁.length = l₂.length →
      (∀ r ∈ l₁, r.length = n) → (∀ r ∈ l₂, r.length = n) →
      List.zipWith f l₁.flatten l₂.flatten = (List.zipWith (List.zipWith f) l₁ l₂).flatten := by
  intro l₁
  induction l₁ with
  | nil =>
    intro l₂ hlen _ _
    cases l₂ with
    | nil => rfl
    | cons b l₂ => simp at hlen
  | cons a l₁ ih =>
    intro l₂ hlen h₁ h₂
    cases l₂ with
    | nil => simp at hlen
    | cons b l₂ =>
      simp only [List.flatten_cons, List.zipWith_cons_cons]
      rw [List.zipWith_append f a l₁.flatten b l₂.flatten
        (by rw [h₁ a (by simp), h₂ b (by simp)])]
      rw [ih l₂ (by simpa using hlen) (fun r hr => h₁ r (by simp [hr]))
        (fun r hr => h₂ r (by simp [hr]))]

theorem zipWith_zipWith_uniform {α β γ : Type} (f : α → β → γ) (n : ℕ) :
    ∀ (l₁ : List (List α)) (l₂ : List (List β)),
      (∀ r ∈ l₁, r.length = n) → (∀ r ∈ l₂, r.length = n) →
      ∀ r ∈ List.zipWith (List.zipWith f) l₁ l₂, r.length = n := by
  intro l₁
  induction l₁ with
  | nil => intro l₂ _ _ r hr; simp at hr
  | cons a l₁ ih =>
    intro l₂ h₁ h₂ r hr
    cases l₂ with
    | nil => simp at hr
    | cons b l₂ =>
      simp only [List.zipWith_cons_cons, List.mem_cons] at hr
      rcases hr with rfl | hr
      · rw [List.length_zipWith, h₁ a (by simp), h₂ b (by simp), min_self]
      · exact ih l₂ (fun r hr => h₁ r (by simp [hr])) (fun r hr => h₂ r (by simp [hr])) r hr

theorem length_flatten_uniform {α : Type} (n : ℕ) :
    ∀ (rows : List (List α)), (∀ r ∈ rows, r.length = n) →
      rows.flatten.length = rows.length * n := by
  intro rows
  induction rows with
  | nil => simp
  | cons a rest ih =>
    intro h
    simp only [List.flatten_cons, List.length_append, List.length_cons,
      ih (fun r hr => h r (by simp [hr])), h a (by simp)]
    ring

theorem flatten_chunks {α : Type} (n : ℕ) :
    ∀ (rows : List (List α)), (∀ r ∈ rows, r.length = n) →
      (List.range rows.length).map (fun i => ((rows.flatten).drop (i * n)).take n) = rows := by
  intro rows
  induction rows with
  | nil => intro _; rfl
  | cons a rest ih =>
    intro h
    have ha : a.length = n := h a (by simp)
    have htail : ∀ i ∈ List.range rest.length,
        (((a :: rest).flatten.drop ((i + 1) * n)).take n) =
          ((rest.flatten.drop (i * n)).take n) := by
      intro i _
      rw [List.flatten_cons, show (i + 1) * n = n + i * n from by ring, ← List.drop_drop,
        List.drop_left' ha]
    calc (List.range (a :: rest).length).map
          (fun i => (((a :: rest).flatten).drop (i * n)).take n)
        = (fun i => (((a :: rest).flatten).drop (i * n)).take n) 0 ::
          (List.range rest.length).map
            ((fun i => (((a :: rest).flatten).drop (i * n)).take n) ∘ Nat.succ) := by
          rw [List.length_cons, List.range_succ_eq_map, List.map_cons, List.map_map]
      _ = a :: (List.range rest.length).map (fun i => ((rest.flatten.drop (i * n)).take n)) := by
          congr 1
          · simp only [List.flatten_cons, Nat.zero_mul, List.drop_zero]
            exact List.take_left' ha
          · exact List.map_congr_left (fun i hi => htail i hi)
      _ = a :: rest := by rw [ih (fun r hr => h r (by simp [hr]))]

theorem getD_mem_of_lt {α : Type} (l : List α) (d : α) (i : ℕ) (h : i < l.length) :
    l.getD i d ∈ l := by
  rw [List.getD_eq_getElem l d h]
  exact List.getElem_mem h

theorem sum_eq_count_nonzero (l : List ℚ) (h01 : ∀ v ∈ l, v = 0 ∨ v = 1) :
    l.sum = (((l.filter (fun v => v ≠ 0)).length : ℕ) : ℚ) := by
  induction l with
  | nil => simp
  | cons x xs ih =>
    have ihs := ih (fun v hv => h01 v (by simp [hv]))
    rcases h01 x (by simp) with rfl | rfl
    · simpa [List.filter_cons] using ihs
    · simp only [List.sum_cons, List.filter_cons, ihs]
      norm_num
      ring

theorem shiftLossRows_eq (ce : List ℚ → ℕ → ℚ)
    (tokens : List (List ℕ)) (logits : List (List (List ℚ)))
    (R S : ℕ) (hR : 0 < R)
    (htok : tokens.length = R) (hlog : logits.length = R)
    (htokS : ∀ r ∈ tokens, r.length = S)
    (hlogS : ∀ r ∈ logits, r.length = S) :
    shiftLossRows ce tokens logits =
      List.zipWith (List.zipWith ce) (logits.map (fun row => row.dropLast))
        (tokens.map (fun row => row.drop 1)) := by
  have hslogS : ∀ r ∈ logits.map (fun row => row.dropLast), r.length = S - 1 := by
    intro r hr
    obtain ⟨row, hrow, rfl⟩ := List.mem_map.1 hr
    rw [List.length_dropLast, hlogS row hrow]
  have hstokS : ∀ r ∈ tokens.map (fun row => row.drop 1), r.length = S - 1 := by
    intro r hr
    obtain ⟨row, hrow, rfl⟩ := List.mem_map.1 hr
    rw [List.length_drop, htokS row hrow]
  have hlen2 : (logits.map (fun row => row.dropLast)).length =
      (tokens.map (fun row => row.drop 1)).length := by
    rw [List.length_map, List.length_map, htok, hlog]
  have hflat := zipWith_flatten_uniform ce (S - 1) (logits.map (fun row => row.dropLast))
    (tokens.map (fun row => row.drop 1)) hlen2 hslogS hstokS
  have hrowsS := zipWith_zipWith_uniform ce (S - 1) (logits.map (fun row => row.dropLast))
    (tokens.map (fun row => row.drop 1)) hslogS hstokS
  have hrows_len : (List.zipWith (List.zipWith ce) (logits.map (fun row => row.dropLast))
      (tokens.map (fun row => row.drop 1))).length = R := by
    rw [List.length_zipWith, List.length_map, List.length_map, htok, hlog, min_self]
  unfold shiftLossRows
  rw [hflat, length_flatten_uniform (S - 1) _ hrowsS, hrows_len, htok,
    Nat.mul_div_cancel_left _ hR, ← hrows_len]
  exact flatten_chunks (S - 1) _ hrowsS

/-- C8 (amended): for 0/1-valued masks with matching shapes and at least one
nonzero shifted-mask entry per row, `get_most_likely_row` returns an index
below the number of rows that minimizes the mask-averaged shifted
cross-entropy loss `mask_avg_loss` over all rows. -/
theorem get_most_likely_row_spec (ce : List ℚ → ℕ → ℚ)
    (tokens : List (List ℕ)) (mask : List (List ℚ)) (logits : List (List (List ℚ)))
    (R S : ℕ) (hR : 0 < R)
    (htok : tokens.length = R) (hmask : mask.length = R) (hlog : logits.length = R)
    (htokS : ∀ r ∈ tokens, r.length = S)
    (_hmaskS : ∀ r ∈ mask, r.length = S)
    (hlogS : ∀ r ∈ logits, r.length = S)
    (h01 : ∀ row ∈ mask, ∀ v ∈ row, v = 0 ∨ v = 1)
    (_hnz : ∀ row ∈ mask, ∃ v ∈ row.drop 1, v ≠ 0) :
    get_most_likely_row ce tokens mask logits < R ∧
    ∀ r, r < R →
      mask_avg_loss ce tokens mask logits (get_most_likely_row ce tokens mask logits) ≤
        mask_avg_loss ce tokens mask logits r := by
  have hshift := shiftLossRows_eq ce tokens logits R S hR htok hlog htokS hlogS
  have hrows_len : (List.zipWith (List.zipWith ce) (logits.map (fun row => row.dropLast))
      (tokens.map (fun row => row.drop 1))).length = R := by
    rw [List.length_zipWith, List.length_map, List.length_map, htok, hlog, min_self]
  have havg_len : (avg_list ce tokens mask logits).length = R := by
    unfold avg_list
    rw [hshift, List.length_zipWith, List.length_map, List.length_map, List.length_map,
      List.length_zipWith, hrows_len, List.length_map, hmask, min_self, min_self]
  have hpoint : ∀ (r : ℕ), r < R →
      (avg_list ce tokens mask logits).getD r 0 =
        mask_avg_loss ce tokens mask logits r := by
    intro r hr
    rw [List.getD_eq_getElem (avg_list ce tokens mask logits) 0 (by rw [havg_len]; exact hr)]
    unfold avg_list
    simp only [hshift, List.getElem_zipWith, List.getElem_map]
    rw [← List.getD_eq_getElem logits [] (by rw [hlog]; exact hr),
      ← List.getD_eq_getElem tokens [] (by rw [htok]; exact hr),
      ← List.getD_eq_getElem mask [] (by rw [hmask]; exact hr)]
    unfold mask_avg_loss
    rw [sum_eq_count_nonzero ((mask.getD r []).drop 1)
      (fun v hv => h01 _ (getD_mem_of_lt mask [] r (by rw [hmask]; exact hr)) v
        (List.mem_of_mem_drop hv))]
  have hne : avg_list ce tokens mask logits ≠ [] := by
    intro he
    rw [he] at havg_len
    simp at havg_len
    omega
  have hlt : idxOfMin (avg_list ce tokens mask logits) < R := by
    rw [← havg_len]
    exact idxOfMin_lt _ hne
  refine ⟨hlt, ?_⟩
  intro r hr
  have h1 : (avg_list ce tokens mask logits).getD (idxOfMin (avg_list ce tokens mask logits)) 0 ≤
      (avg_list ce tokens mask logits).getD r 0 :=
    idxOfMin_le _ _ (getD_mem_of_lt _ 0 r (by rw [havg_len]; exact hr))
  calc mask_avg_loss ce tokens mask logits (get_most_likely_row ce tokens mask logits)
      = (avg_list ce tokens mask logits).getD (idxOfMin (avg_list ce tokens mask logits)) 0 :=
        (hpoint _ hlt).symm
    _ ≤ (avg_list ce tokens mask logits).getD r 0 := h1
    _ = mask_avg_loss ce tokens mask logits r := hpoint r hr

theorem get_most_likely_row_spec_witness :
    get_most_likely_row (fun _ _ => 1) [[0, 0, 0], [0, 0, 0]] [[0, 1, 0], [0, 1, 1]]
      [[[0], [0], [0]], [[0], [0], [0]]] < 2 ∧
    ∀ r, r < 2 →
      mask_avg_loss (fun _ _ => 1) [[0, 0, 0], [0, 0, 0]] [[0, 1, 0], [0, 1, 1]]
        [[[0], [0], [0]], [[0], [0], [0]]]
        (get_most_likely_row (fun _ _ => 1) [[0, 0, 0], [0, 0, 0]] [[0, 1, 0], [0, 1, 1]]
          [[[0], [0], [0]], [[0], [0], [0]]]) ≤
      mask_avg_loss (fun _ _ => 1) [[0, 0, 0], [0, 0, 0]] [[0, 1, 0], [0, 1, 1]]
        [[[0], [0], [0]], [[0], [0], [0]]] r :=
  get_most_likely_row_spec (fun _ _ => 1) [[0, 0, 0], [0, 0, 0]] [[0, 1, 0], [0, 1, 1]]
    [[[0], [0], [0]], [[0], [0], [0]]] 2 3 (by decide) rfl rfl rfl
    (by decide) (by decide) (by decide) (by decide) (by decide)

/-- C8 (counterexample to the claim as stated): the code divides the masked
loss sum by the *sum* of the shifted-mask entries, not by the *number of
nonzero* entries, and the claim quantifies over every mask with matching
shapes.  With constant per-position cross-entropy 1 (any constant positive
value works, and real cross-entropy is strictly positive), mask rows
`[0, 2, 0]` and `[0, 1, 1]` make the code return row 0 while the claim's
formula is uniquely minimized at row 1. -/
theorem get_most_likely_row_cex :
    get_most_likely_row (fun _ _ => 1) [[0, 0, 0], [0, 0, 0]] [[0, 2, 0], [0, 1, 1]]
      [[[0], [0], [0]], [[0], [0], [0]]] = 0 ∧
    mask_avg_loss (fun _ _ => 1) [[0, 0, 0], [0, 0, 0]] [[0, 2, 0], [0, 1, 1]]
      [[[0], [0], [0]], [[0], [0], [0]]] 1 <
    mask_avg_loss (fun _ _ => 1) [[0, 0, 0], [0, 0, 0]] [[0, 2, 0], [0, 1, 1]]
      [[[0], [0], [0]], [[0], [0], [0]]] 0 := by
  constructor
  · norm_num [get_most_likely_row, avg_list, shiftLossRows, idxOfMin, minVal]
  · norm_num [mask_avg_loss]

/-! ### Theorems: causal self-attention (C3) -/

theorem attn_causal (prim : Prim) (a : CausalSelfAttention)
    (xs xs' : List (List ℚ)) (t : ℕ) (ht : t < xs.length) (ht' : t < xs'.length)
    (hpre : xs.take (t + 1) = xs'.take (t + 1)) :
    (CausalSelfAttention.forward prim a xs)[t]? =
      (CausalSelfAttention.forward prim a xs')[t]? := by
  have hx : xs[t]? = xs'[t]? := by
    have h1 : xs[t]? = (xs.take (t + 1))[t]? := by
      rw [List.getElem?_take, if_pos (Nat.lt_succ_self t)]
    have h2 : xs'[t]? = (xs'.take (t + 1))[t]? := by
      rw [List.getElem?_take, if_pos (Nat.lt_succ_self t)]
    rw [h1, h2, hpre]
  have hq : (qRows a xs).getD t [] = (qRows a xs').getD t [] := by
    unfold qRows qkvRows
    rw [List.map_map, List.map_map, List.getD_eq_getElem?_getD, List.getD_eq_getElem?_getD,
      List.getElem?_map, List.getElem?_map, hx]
  have hk : (kRows a xs).take (t + 1) = (kRows a xs').take (t + 1) := by
    unfold kRows qkvRows
    rw [List.map_map, List.map_map, ← List.map_take, ← List.map_take, hpre]
  have hv : (vRows a xs).take (t + 1) = (vRows a xs').take (t + 1) := by
    unfold vRows qkvRows
    rw [List.map_map, List.map_map, ← List.map_take, ← List.map_take, hpre]
  unfold CausalSelfAttention.forward
  rw [List.getElem?_map, List.getElem?_map, List.getElem?_range ht, List.getElem?_range ht']
  simp only [Option.map_some']
  rw [hq, hk, hv]

theorem sdpa_getD (prim : Prim) (hs : ℕ) (q k v : List (List ℚ)) (t : ℕ)
    (ht : t < q.length) :
    (sdpa prim hs q k v).getD t [] =
      sumVecs hs (List.zipWith smul
        (softmax prim ((k.take (t + 1)).map (fun kr =>
          dot (q.getD t []) kr / prim.sqrt ((hs : ℕ) : ℚ))))
        (v.take (t + 1))) := by
  unfold sdpa
  rw [List.getD_eq_getElem?_getD, List.getElem?_map, List.getElem?_range ht]
  rfl

theorem attn_eq_sdpa (prim : Prim) (a : CausalSelfAttention) (xs : List (List ℚ)) :
    CausalSelfAttention.forward prim a xs = specAttn prim a xs := by
  unfold CausalSelfAttention.forward specAttn
  apply List.map_congr_left
  intro t htr
  have ht : t < xs.length := List.mem_range.1 htr
  congr 1
  rw [List.flatMap_def, List.flatMap_def]
  congr 1
  apply List.map_congr_left
  intro h _
  have hQlen : ((qRows a xs).map (headSlice (a.n_embd / a.n_head) h)).length = xs.length := by
    simp [qRows, qkvRows]
  rw [sdpa_getD prim (a.n_embd / a.n_head) _ _ _ t (by rw [hQlen]; exact ht)]
  have hqslice : ((qRows a xs).map (headSlice (a.n_embd / a.n_head) h)).getD t [] =
      headSlice (a.n_embd / a.n_head) h ((qRows a xs).getD t []) := by
    have hqlen : (qRows a xs).length = xs.length := by simp [qRows, qkvRows]
    rw [List.getD_eq_getElem?_getD, List.getD_eq_getElem?_getD, List.getElem?_map,
      List.getElem?_eq_getElem (by rw [hqlen]; exact ht)]
    rfl
  rw [hqslice, ← List.map_take, ← List.map_take, List.map_map]
  rfl

/-- C3: `CausalSelfAttention.forward` is causally masked — the output at
position `t` is a function only of the input at positions `0..t` (for any two
batch rows agreeing on positions `0..t`, the outputs at `t` agree; batch rows
are processed independently) — and within that constraint it equals
multi-head scaled dot-product attention, `softmax(Q Kᵀ / sqrt(head_size)) V`
per head on positions `0..t`, followed by the output projection `c_proj`. -/
theorem attn_causal_sdpa (prim : Prim) (a : CausalSelfAttention)
    (xs xs' : List (List ℚ)) (t : ℕ) (ht : t < xs.length) (ht' : t < xs'.length)
    (hpre : xs.take (t + 1) = xs'.take (t + 1)) :
    (CausalSelfAttention.forward prim a xs)[t]? =
      (CausalSelfAttention.forward prim a xs')[t]? ∧
    CausalSelfAttention.forward prim a xs = specAttn prim a xs :=
  ⟨attn_causal prim a xs xs' t ht ht' hpre, attn_eq_sdpa prim a xs⟩

theorem attn_causal_sdpa_witness :
    (CausalSelfAttention.forward tinyPrim tinyAttn [[1], [2]])[0]? =
      (CausalSelfAttention.forward tinyPrim tinyAttn [[1], [3]])[0]? ∧
    CausalSelfAttention.forward tinyPrim tinyAttn [[1], [2]] =
      specAttn tinyPrim tinyAttn [[1], [2]] :=
  attn_causal_sdpa tinyPrim tinyAttn [[1], [2]] [[1], [3]] 0
    (by decide) (by decide) (by decide)

/-! ### Theorems: the GPT forward pass (C1) -/

theorem matVec_length (W : List (List ℚ)) (x : List ℚ) :
    (matVec W x).length = W.length := List.length_map W _

theorem linear_forward_length (l : Linear) (din dout : ℕ) (hWF : LinearWF l din dout)
    (x : List ℚ) : (l.forward x).length = dout := by
  obtain ⟨hw, _, hb⟩ := hWF
  rcases l with ⟨w, b⟩
  cases b with
  | none => simpa [Linear.forward, matVec] using hw
  | some bb =>
    have hbb : bb.length = dout := hb bb rfl
    simp [Linear.forward, matVec, List.length_zipWith, hw, hbb]

theorem layernorm_forward_length (prim : Prim) (ln : LayerNorm) (d : ℕ)
    (hWF : LayerNormWF ln d) (x : List ℚ) (hx : x.length = d) :
    (ln.forward prim x).length = d := by
  obtain ⟨hw, hb⟩ := hWF
  simp [LayerNorm.forward, List.length_zipWith, List.length_zip, hw, hb, hx]

theorem mlp_forward_length (prim : Prim) (m : MLP) (C : ℕ) (hWF : MLPWF m C)
    (x : List ℚ) : (m.forward prim x).length = C := by
  unfold MLP.forward
  exact linear_forward_length m.c_proj (4 * C) C hWF.2 _

theorem attn_forward_shape (prim : Prim) (a : CausalSelfAttention) (C : ℕ)
    (hWF : AttnWF a C) (xs : List (List ℚ)) :
    (CausalSelfAttention.forward prim a xs).length = xs.length ∧
    ∀ r ∈ CausalSelfAttention.forward prim a xs, r.length = C := by
  obtain ⟨_, _, _, _, hproj⟩ := hWF
  constructor
  · simp [CausalSelfAttention.forward]
  · intro r hr
    simp only [CausalSelfAttention.forward, List.mem_map] at hr
    obtain ⟨t, _, rfl⟩ := hr
    exact linear_forward_length a.c_proj C C hproj _

theorem zipWith_addVec_uniform (n : ℕ) (l₁ l₂ : List (List ℚ))
    (h₁ : ∀ r ∈ l₁, r.length = n) (h₂ : ∀ r ∈ l₂, r.length = n) :
    ∀ r ∈ List.zipWith addVec l₁ l₂, r.length = n :=
  zipWith_zipWith_uniform (fun x y => x + y) n l₁ l₂ h₁ h₂

theorem block_forward_shape (prim : Prim) (b : Block) (C : ℕ) (hWF : BlockWF b C)
    (xs : List (List ℚ)) (hx : ∀ r ∈ xs, r.length = C) :
    (Block.forward prim b xs).length = xs.length ∧
    ∀ r ∈ Block.forward prim b xs, r.length = C := by
  obtain ⟨_, hattnWF, _, hmlpWF⟩ := hWF
  have hattn := attn_forward_shape prim b.attn C hattnWF (xs.map (b.ln_1.forward prim))
  have hx1_len : (List.zipWith addVec xs (CausalSelfAttention.forward prim b.attn
      (xs.map (b.ln_1.forward prim)))).length = xs.length := by
    rw [List.length_zipWith, hattn.1, List.length_map, min_self]
  have hx1_rows : ∀ r ∈ List.zipWith addVec xs (CausalSelfAttention.forward prim b.attn
      (xs.map (b.ln_1.forward prim))), r.length = C :=
    zipWith_addVec_uniform C _ _ hx hattn.2
  have hmlp_rows : ∀ r ∈ (List.zipWith addVec xs (CausalSelfAttention.forward prim b.attn
      (xs.map (b.ln_1.forward prim)))).map
        (fun v => b.mlp.forward prim (b.ln_2.forward prim v)), r.length = C := by
    intro r hr
    obtain ⟨v, _, rfl⟩ := List.mem_map.1 hr
    exact mlp_forward_length prim b.mlp C hmlpWF _
  constructor
  · show (List.zipWith addVec _ _).length = xs.length
    rw [List.length_zipWith, List.length_map, min_self, hx1_len]
  · exact zipWith_addVec_uniform C _ _ hx1_rows hmlp_rows

theorem foldl_blocks_shape (prim : Prim) (C : ℕ) :
    ∀ (bs : List Block) (x : List (List ℚ)),
      (∀ b ∈ bs, BlockWF b C) → (∀ r ∈ x, r.length = C) →
      (bs.foldl (fun x blk => Block.forward prim blk x) x).length = x.length ∧
      ∀ r ∈ bs.foldl (fun x blk => Block.forward prim blk x) x, r.length = C := by
  intro bs
  induction bs with
  | nil => intro x _ hx; exact ⟨rfl, hx⟩
  | cons b rest ih =>
    intro x hWF hx
    have hb := block_forward_shape prim b C (hWF b (by simp)) x hx
    have := ih (Block.forward prim b x) (fun b hb => hWF b (by simp [hb])) hb.2
    exact ⟨this.1.trans hb.1, this.2⟩

theorem foldl_eq_composeBlocks (prim : Prim) :
    ∀ (bs : List Block) (x : List (List ℚ)),
      bs.foldl (fun x blk => Block.forward prim blk x) x = composeBlocks prim bs x := by
  intro bs
  induction bs with
  | nil => intro x; rfl
  | cons b rest ih => intro x; exact ih (Block.forward prim b x)

theorem gpt_forwardSeq_shape (prim : Prim) (g : GPT) (hWF : GPTWF g) (seq : List ℕ)
    (hlen : seq.length ≤ g.config.block_size)
    (htk : ∀ tk ∈ seq, tk < g.config.vocab_size) :
    (GPT.forwardSeq prim g seq).length = seq.length ∧
    ∀ v ∈ GPT.forwardSeq prim g seq, v.length = g.config.vocab_size := by
  obtain ⟨hwte_len, hwte_rows, hwpe_len, hwpe_rows, hblocks, hlnf, hhead⟩ := hWF
  have htok_rows : ∀ r ∈ seq.map (fun tk => g.wte.getD tk []), r.length = g.config.n_embd := by
    intro r hr
    obtain ⟨tk, htkm, rfl⟩ := List.mem_map.1 hr
    have hlt : tk < g.wte.length := by rw [hwte_len]; exact htk tk htkm
    rw [List.getD_eq_getElem g.wte [] hlt]
    exact hwte_rows _ (List.getElem_mem hlt)
  have hpos_rows : ∀ r ∈ (List.range seq.length).map (fun t => g.wpe.getD t []),
      r.length = g.config.n_embd := by
    intro r hr
    obtain ⟨t, htm, rfl⟩ := List.mem_map.1 hr
    have hlt : t < g.wpe.length := by
      rw [hwpe_len]
      exact lt_of_lt_of_le (List.mem_range.1 htm) hlen
    rw [List.getD_eq_getElem g.wpe [] hlt]
    exact hwpe_rows _ (List.getElem_mem hlt)
  have hx0_len : (List.zipWith addVec (seq.map (fun tk => g.wte.getD tk []))
      ((List.range seq.length).map (fun t => g.wpe.getD t []))).length = seq.length := by
    rw [List.length_zipWith, List.length_map, List.length_map, List.length_range, min_self]
  have hx0_rows := zipWith_addVec_uniform g.config.n_embd _ _ htok_rows hpos_rows
  have hfold := foldl_blocks_shape prim g.config.n_embd g.h _ hblocks hx0_rows
  constructor
  · unfold GPT.forwardSeq
    rw [List.length_map, List.length_map, hfold.1, hx0_len]
  · intro v hv
    unfold GPT.forwardSeq at hv
    obtain ⟨u, hu, rfl⟩ := List.mem_map.1 hv
    obtain ⟨w, hw, rfl⟩ := List.mem_map.1 hu
    exact linear_forward_length g.lm_head g.config.n_embd g.config.vocab_size hhead _

/-- C1: for every batch of token rows of common length `T ≤ block_size` (with
in-range token ids and a shape-well-formed model), `GPT.forward` succeeds and
returns exactly
`lm_head(ln_f(h_{n_layer}(... h_1(wte(idx) + wpe([0..T-1])) ...)))` — token
and position embeddings summed, the blocks applied in order as pre-norm
residual compositions, final layer norm, projection to logits — with output
shape `(B, T, vocab_size)`. -/
theorem gpt_forward_spec (prim : Prim) (g : GPT) (idx : List (List ℕ)) (B T : ℕ)
    (hWF : GPTWF g) (hB : idx.length = B) (hT : ∀ r ∈ idx, r.length = T)
    (hblock : T ≤ g.config.block_size)
    (htk : ∀ r ∈ idx, ∀ tk ∈ r, tk < g.config.vocab_size) :
    GPT.forward prim g idx = some (GPT.specForward prim g idx) ∧
    (GPT.specForward prim g idx).length = B ∧
    ∀ row ∈ GPT.specForward prim g idx, row.length = T ∧
      ∀ v ∈ row, v.length = g.config.vocab_size := by
  have hseq_eq : ∀ seq, GPT.forwardSeq prim g seq =
      ((composeBlocks prim g.h
          (List.zipWith addVec (seq.map (fun tk => g.wte.getD tk []))
            ((List.range seq.length).map (fun t => g.wpe.getD t [])))).map
        (g.ln_f.forward prim)).map g.lm_head.forward := by
    intro seq
    unfold GPT.forwardSeq
    rw [foldl_eq_composeBlocks]
  refine ⟨?_, ?_, ?_⟩
  · unfold GPT.forward
    rw [if_pos (fun r hr => by rw [hT r hr]; exact hblock)]
    unfold GPT.specForward
    congr 1
    apply List.map_congr_left
    intro seq _
    exact hseq_eq seq
  · unfold GPT.specForward
    rw [List.length_map, hB]
  · intro row hrow
    obtain ⟨seq, hseq, rfl⟩ := List.mem_map.1 hrow
    have hsh := gpt_forwardSeq_shape prim g hWF seq
      (by rw [hT seq hseq]; exact hblock) (htk seq hseq)
    rw [← hseq_eq seq]
    exact ⟨hsh.1.trans (hT seq hseq), hsh.2⟩

theorem gpt_forward_spec_witness :
    GPT.forward tinyPrim tinyGPT [[0]] = some (GPT.specForward tinyPrim tinyGPT [[0]]) ∧
    (GPT.specForward tinyPrim tinyGPT [[0]]).length = 1 ∧
    ∀ row ∈ GPT.specForward tinyPrim tinyGPT [[0]], row.length = 1 ∧
      ∀ v ∈ row, v.length = tinyGPT.config.vocab_size :=
  gpt_forward_spec tinyPrim tinyGPT [[0]] 1 1
    (by constructor <;> simp [GPTWF, tinyGPT, LayerNormWF, LinearWF, BlockWF])
    rfl (by decide) (by decide) (by decide)

end GPT2
